import Mathlib

/-!
Verification development for the token-usage dashboard backend.

The definitions below are a shallow embedding of the backend source:
`backend/services/token_usage_service.py` (the aggregation service and its
two SQL queries), `backend/routes/token_usage.py` (the request handler),
and `backend/middleware/auth_middleware.py` (the JWT / RBAC middleware).
SQL (`GROUP BY` / `ORDER BY` / `SUM` over the `token_usage` table) is
modelled as pure list processing over the table contents; Python dicts are
modelled as insertion-ordered association lists.
-/

namespace TokenDashboard

/-- A calendar timestamp, the model of a SQL `DateTime` column value and of
Python `datetime` objects (microseconds are irrelevant to the code paths
modelled here and are omitted; including them would only add one more
lexicographic component). -/
structure DateTime where
  year : Nat
  month : Nat
  day : Nat
  hour : Nat
  minute : Nat
  second : Nat
  deriving DecidableEq, Repr

/-- Lexicographic comparison key of a timestamp: timestamps of valid
calendar datetimes compare chronologically field by field. -/
abbrev DTKey : Type := Lex (Nat × Lex (Nat × Lex (Nat × Lex (Nat × Lex (Nat × Nat)))))

def DateTime.key (t : DateTime) : DTKey :=
  toLex (t.year, toLex (t.month, toLex (t.day, toLex (t.hour, toLex (t.minute, t.second)))))

/-- Timestamp comparison `a <= b`, as used by the SQL `usage_time >= :x` /
`usage_time <= :y` filters and the Python `start_dt > end_dt` check. -/
def dtLe (a b : DateTime) : Prop := a.key ≤ b.key

def dtLt (a b : DateTime) : Prop := a.key < b.key

instance : DecidableRel dtLe := fun a b => inferInstanceAs (Decidable (a.key ≤ b.key))

instance : DecidableRel dtLt := fun a b => inferInstanceAs (Decidable (a.key < b.key))

theorem DateTime.key_inj {a b : DateTime} (h : a.key = b.key) : a = b := by
  cases a; cases b
  simp only [DateTime.key, toLex_inj, Prod.mk.injEq] at h
  simp_all

instance : IsTotal DateTime dtLe := ⟨fun a b => le_total a.key b.key⟩

instance : IsTrans DateTime dtLe := ⟨fun _ _ _ h h' => le_trans h h'⟩

/-- Days since 0000-03-01 of a (proleptic Gregorian) civil date with
`year >= 1`; the standard era-based conversion, used to model the week
truncation performed by Postgres `date_trunc('week', ...)`. -/
def daysFromCivil (y m d : Nat) : Nat :=
  let y' := if m ≤ 2 then y - 1 else y
  let era := y' / 400
  let yoe := y' % 400
  let mp := if m > 2 then m - 3 else m + 9
  let doy := (153 * mp + 2) / 5 + d - 1
  let doe := yoe * 365 + yoe / 4 - yoe / 100 + doy
  era * 146097 + doe

/-- Inverse of `daysFromCivil`: the civil date `(year, month, day)` of a day
count since 0000-03-01. -/
def civilFromDays (z : Nat) : Nat × Nat × Nat :=
  let era := z / 146097
  let doe := z % 146097
  let yoe := (doe - doe / 1460 + doe / 36524 - doe / 146096) / 365
  let y' := yoe + era * 400
  let doy := doe - (365 * yoe + yoe / 4 - yoe / 100)
  let mp := (5 * doy + 2) / 153
  let d := doy - (153 * mp + 2) / 5 + 1
  let m := if mp < 10 then mp + 3 else mp - 9
  (if m ≤ 2 then y' + 1 else y', m, d)

/-- Monday-based weekday index (Monday = 0) of a day count since
0000-03-01 (which was a Wednesday; 1970-01-01, day 719468, is a Thursday). -/
def mondayIndex (z : Nat) : Nat := (z + 2) % 7

/-- `date_trunc('week', t)`: the Monday 00:00:00 starting the ISO week
containing `t` (Postgres weeks start on Monday). -/
def weekTrunc (t : DateTime) : DateTime :=
  let z := daysFromCivil t.year t.month t.day
  let z' := z - mondayIndex z
  let c := civilFromDays z'
  ⟨c.1, c.2.1, c.2.2, 0, 0, 0⟩

/-- `date_trunc(:trunc_unit, usage_time)` for the three units the service
ever passes (`'day'`, `'week'`, `'month'`); the final catch-all case is
unreachable because `trunc_unit` below only produces those three strings. -/
def dateTrunc (unit : String) (t : DateTime) : DateTime :=
  if unit = "day" then ⟨t.year, t.month, t.day, 0, 0, 0⟩
  else if unit = "week" then weekTrunc t
  else if unit = "month" then ⟨t.year, t.month, 1, 0, 0, 0⟩
  else ⟨t.year, t.month, t.day, 0, 0, 0⟩

/-- A timestamp whose time-of-day part is zero — the shape of every value
`date_trunc` produces. -/
def isTrunc (p : DateTime) : Prop := p.hour = 0 ∧ p.minute = 0 ∧ p.second = 0

/-- A row of the `token_usage` table (`backend/models/models.py`,
class `TokenUsage`). -/
structure TokenUsage where
  id : Nat
  user_id : String
  usage_time : DateTime
  tokens_used : Int
  activity : String
  deriving DecidableEq, Repr

/-- The authenticated-user object attached to `request.state.user`
(`backend/models/models.py`, class `User`). -/
structure User where
  id : String
  username : String
  roles : List String
  deriving DecidableEq, Repr

/-- The value of `row["period"].strftime("%Y-%m-%d")`: since the format
string is exactly zero-padded year-month-day, the produced string is
determined by (and determines) this triple, and lexicographic string order
on the formatted strings agrees with lexicographic order on the triples
for years up to 9999. -/
structure DateKey where
  year : Nat
  month : Nat
  day : Nat
  deriving DecidableEq, Repr

def formatDate (t : DateTime) : DateKey := ⟨t.year, t.month, t.day⟩

def DateKey.key (d : DateKey) : Lex (Nat × Lex (Nat × Nat)) :=
  toLex (d.year, toLex (d.month, d.day))

/-- Strict ascending order of formatted bucket keys. -/
def dkLt (a b : DateKey) : Prop := a.key < b.key

instance : DecidableRel dkLt := fun a b => inferInstanceAs (Decidable (a.key < b.key))

/-- Python `dict` lookup (`m[k]` / `k in m`), on the insertion-ordered
association-list model of dicts. -/
def dictGet? {α β : Type} [DecidableEq α] : List (α × β) → α → Option β
  | [], _ => none
  | (k, v) :: rest, k' => if k' = k then some v else dictGet? rest k'

/-- Python `dict` assignment `m[k] = v`: overwrites in place when the key is
present (keeping its position), appends otherwise. -/
def dictSet {α β : Type} [DecidableEq α] : List (α × β) → α → β → List (α × β)
  | [], k, v => [(k, v)]
  | (k', v') :: rest, k, v => if k = k' then (k, v) :: rest else (k', v') :: dictSet rest k v

def sumValues (m : List (String × Int)) : Int := (m.map Prod.snd).sum

/-- The shared WHERE clause of both aggregate queries in
`get_token_usage_aggregated`:
`user_id = :user_id AND usage_time >= :start_date AND usage_time <= :end_date`. -/
def matchesQuery (uid : String) (s e : DateTime) (ev : TokenUsage) : Prop :=
  ev.user_id = uid ∧ dtLe s ev.usage_time ∧ dtLe ev.usage_time e

instance (uid : String) (s e : DateTime) (ev : TokenUsage) :
    Decidable (matchesQuery uid s e ev) :=
  inferInstanceAs (Decidable (_ ∧ _ ∧ _))

/-- The rows of `token_usage` that satisfy the WHERE clause. -/
def filteredEvents (events : List TokenUsage) (uid : String) (s e : DateTime) :
    List TokenUsage :=
  events.filter fun ev => decide (matchesQuery uid s e ev)

/-- Codepoint-wise comparison of character lists: the model of the
collation used by `ORDER BY activity ASC` on the text column. -/
def clLe : List Char → List Char → Bool
  | [], _ => true
  | _ :: _, [] => false
  | a :: as, b :: bs =>
    if a.val.toNat < b.val.toNat then true
    else if b.val.toNat < a.val.toNat then false
    else clLe as bs

theorem clLe_total : ∀ a b : List Char, clLe a b = true ∨ clLe b a = true
  | [], _ => Or.inl rfl
  | _ :: _, [] => Or.inr rfl
  | a :: as, b :: bs => by
    simp only [clLe]
    rcases Nat.lt_trichotomy a.val.toNat b.val.toNat with h | h | h
    · simp [h]
    · simpa [h] using clLe_total as bs
    · simp [h, Nat.lt_asymm h]

theorem clLe_trans : ∀ a b c : List Char,
    clLe a b = true → clLe b c = true → clLe a c = true
  | [], _, _, _, _ => rfl
  | _ :: _, [], _, h, _ => by simp [clLe] at h
  | _ :: _, _ :: _, [], _, h => by simp [clLe] at h
  | a :: as, b :: bs, c :: cs, h1, h2 => by
    simp only [clLe] at h1 h2 ⊢
    rcases Nat.lt_trichotomy a.val.toNat b.val.toNat with hab | hab | hab
    · rcases Nat.lt_trichotomy b.val.toNat c.val.toNat with hbc | hbc | hbc
      · simp [Nat.lt_trans hab hbc]
      · simp [hbc ▸ hab]
      · simp [hab, Nat.lt_asymm hab] at h1
        rcases Nat.lt_trichotomy a.val.toNat c.val.toNat with hac | hac | hac
        · simp [hac]
        · simp [hbc, Nat.lt_asymm hbc] at h2
        · simp [hbc, Nat.lt_asymm hbc] at h2
    · rcases Nat.lt_trichotomy b.val.toNat c.val.toNat with hbc | hbc | hbc
      · simp [hab ▸ hbc]
      · simp only [hab, hbc, Nat.lt_irrefl, if_neg (Nat.lt_irrefl _), if_pos rfl] at *
        simp [hab, hbc, Nat.lt_irrefl] at h1 h2 ⊢
        exact clLe_trans as bs cs h1 h2
      · simp [hbc, Nat.lt_asymm hbc] at h2
    · simp [hab, Nat.lt_asymm hab] at h1

theorem clLe_antisymm : ∀ a b : List Char,
    clLe a b = true → clLe b a = true → a = b
  | [], [], _, _ => rfl
  | [], _ :: _, _, h => by simp [clLe] at h
  | _ :: _, [], h, _ => by simp [clLe] at h
  | a :: as, b :: bs, h1, h2 => by
    simp only [clLe] at h1 h2
    rcases Nat.lt_trichotomy a.val.toNat b.val.toNat with hab | hab | hab
    · simp [hab, Nat.lt_asymm hab] at h2
    · have : a = b := Char.ext (UInt32.ext hab)
      subst this
      simp [Nat.lt_irrefl] at h1 h2
      exact congrArg (a :: ·) (clLe_antisymm as bs h1 h2)
    · simp [hab, Nat.lt_asymm hab] at h1

/-- `a <= b` on strings under codepoint collation. -/
def strLe (a b : String) : Prop := clLe a.data b.data = true

def strLt (a b : String) : Prop := strLe a b ∧ a ≠ b

instance : DecidableRel strLe := fun a b => inferInstanceAs (Decidable (_ = true))

instance : DecidableRel strLt := fun _ _ => inferInstanceAs (Decidable (_ ∧ _))

theorem strLe_total (a b : String) : strLe a b ∨ strLe b a := clLe_total a.data b.data

theorem strLe_trans {a b c : String} (h1 : strLe a b) (h2 : strLe b c) : strLe a c :=
  clLe_trans a.data b.data c.data h1 h2

theorem strLe_antisymm {a b : String} (h1 : strLe a b) (h2 : strLe b a) : a = b :=
  String.ext (clLe_antisymm a.data b.data h1 h2)

/-- The sort order of `ORDER BY period ASC, activity ASC`. -/
def pairLe (a b : DateTime × String) : Prop :=
  dtLt a.1 b.1 ∨ (a.1 = b.1 ∧ strLe a.2 b.2)

instance : DecidableRel pairLe := fun _ _ => inferInstanceAs (Decidable (_ ∨ _))

instance : IsTotal (DateTime × String) pairLe := by
  refine ⟨fun a b => ?_⟩
  rcases lt_trichotomy a.1.key b.1.key with h | h | h
  · exact Or.inl (Or.inl h)
  · rcases strLe_total a.2 b.2 with h' | h'
    · exact Or.inl (Or.inr ⟨DateTime.key_inj h, h'⟩)
    · exact Or.inr (Or.inr ⟨DateTime.key_inj h.symm, h'⟩)
  · exact Or.inr (Or.inl h)

instance : IsTrans (DateTime × String) pairLe := by
  refine ⟨fun a b c h1 h2 => ?_⟩
  rcases h1 with h1 | ⟨h1e, h1s⟩
  · rcases h2 with h2 | ⟨h2e, _⟩
    · exact Or.inl (lt_trans h1 h2)
    · exact Or.inl (h2e ▸ h1)
  · rcases h2 with h2 | ⟨h2e, h2s⟩
    · exact Or.inl (h1e ▸ h2)
    · exact Or.inr ⟨h1e.trans h2e, strLe_trans h1s h2s⟩

/-- The first aggregate query (`usage_query`): one row per distinct
truncated period among the matching events, carrying `SUM(tokens_used)`,
ordered ascending by period. -/
def seriesRows (events : List TokenUsage) (uid : String) (s e : DateTime)
    (unit : String) : List (DateTime × Int) :=
  let F := filteredEvents events uid s e
  (List.insertionSort dtLe ((F.map fun ev => dateTrunc unit ev.usage_time).dedup)).map
    fun p => (p, ((F.filter fun ev => decide (dateTrunc unit ev.usage_time = p)).map
      fun ev => ev.tokens_used).sum)

/-- The second aggregate query (`breakdown_query`): one row per distinct
`(period, activity)` pair among the matching events, carrying
`SUM(tokens_used)`, ordered by `period ASC, activity ASC`. -/
def breakdownRows (events : List TokenUsage) (uid : String) (s e : DateTime)
    (unit : String) : List ((DateTime × String) × Int) :=
  let F := filteredEvents events uid s e
  (List.insertionSort pairLe
      ((F.map fun ev => (dateTrunc unit ev.usage_time, ev.activity)).dedup)).map
    fun k => (k, ((F.filter fun ev =>
      decide ((dateTrunc unit ev.usage_time, ev.activity) = k)).map
        fun ev => ev.tokens_used).sum)

/-- The `timeframe -> trunc_unit` if/elif chain of
`get_token_usage_aggregated` (note the silent `else` default to `"day"`). -/
def trunc_unit (timeframe : String) : String :=
  if timeframe = "daily" then "day"
  else if timeframe = "weekly" then "week"
  else if timeframe = "monthly" then "month"
  else "day"

abbrev Series := List (DateKey × Int)

abbrev Breakdowns := List (DateKey × List (String × Int))

/-- One iteration of the Python loop that builds the `breakdowns` dict:
`if period not in breakdowns: breakdowns[period] = {}` followed by
`breakdowns[period][activity] = tokens`. -/
def bdStep (bd : Breakdowns) (r : (DateTime × String) × Int) : Breakdowns :=
  dictSet bd (formatDate r.1.1)
    (dictSet ((dictGet? bd (formatDate r.1.1)).getD []) r.1.2 r.2)

/-- The Python loop that builds the `breakdowns` dict from the rows of the
second query, via insertion-ordered dicts. -/
def buildBreakdowns (rows : List ((DateTime × String) × Int)) : Breakdowns :=
  rows.foldl bdStep []

/-- `get_token_usage_aggregated` from
`backend/services/token_usage_service.py`, with the contents of the
`token_usage` table passed explicitly.  Returns `(usage_data, breakdowns)`. -/
def get_token_usage_aggregated (events : List TokenUsage) (user_id : String)
    (start_date end_date : DateTime) (timeframe : String) : Series × Breakdowns :=
  let tu := trunc_unit timeframe
  ((seriesRows events user_id start_date end_date tu).map fun r => (formatDate r.1, r.2),
   buildBreakdowns (breakdownRows events user_id start_date end_date tu))

/-- Gregorian leap-year test, as used by Python `datetime` validation. -/
def isLeap (y : Nat) : Prop := (y % 4 = 0 ∧ y % 100 ≠ 0) ∨ y % 400 = 0

instance (y : Nat) : Decidable (isLeap y) := inferInstanceAs (Decidable (_ ∨ _))

def daysInMonth (y m : Nat) : Nat :=
  if m = 2 then (if isLeap y then 29 else 28)
  else if m = 4 ∨ m = 6 ∨ m = 9 ∨ m = 11 then 30
  else 31

def chVal (c : Char) : Nat := c.toNat - 48

def num4 (a b c d : Char) : Nat :=
  1000 * chVal a + 100 * chVal b + 10 * chVal c + chVal d

/-- Range validation performed by the `datetime` constructor after
`strptime` has matched the digit groups. -/
def mkDate (y m d : Nat) : Option DateTime :=
  if 1 ≤ y ∧ 1 ≤ m ∧ m ≤ 12 ∧ 1 ≤ d ∧ d ≤ daysInMonth y m then
    some ⟨y, m, d, 0, 0, 0⟩
  else none

/-- `datetime.strptime(s, "%Y-%m-%d")`: four year digits, one or two month
digits, one or two day digits, separated by hyphens, with calendar
validation; the result is midnight of the parsed date.  `none` models the
`ValueError` branch. -/
def parseDate (s : String) : Option DateTime :=
  match s.toList with
  | [a, b, c, d, '-', m1, '-', e1] =>
    if a.isDigit && b.isDigit && c.isDigit && d.isDigit && m1.isDigit && e1.isDigit then
      mkDate (num4 a b c d) (chVal m1) (chVal e1)
    else none
  | [a, b, c, d, '-', m1, m2, '-', e1] =>
    if a.isDigit && b.isDigit && c.isDigit && d.isDigit && m1.isDigit && m2.isDigit
        && e1.isDigit then
      mkDate (num4 a b c d) (10 * chVal m1 + chVal m2) (chVal e1)
    else none
  | [a, b, c, d, '-', m1, '-', e1, e2] =>
    if a.isDigit && b.isDigit && c.isDigit && d.isDigit && m1.isDigit && e1.isDigit
        && e2.isDigit then
      mkDate (num4 a b c d) (chVal m1) (10 * chVal e1 + chVal e2)
    else none
  | [a, b, c, d, '-', m1, m2, '-', e1, e2] =>
    if a.isDigit && b.isDigit && c.isDigit && d.isDigit && m1.isDigit && m2.isDigit
        && e1.isDigit && e2.isDigit then
      mkDate (num4 a b c d) (10 * chVal m1 + chVal m2) (10 * chVal e1 + chVal e2)
    else none
  | _ => none

/-- A response of the modelled endpoint: either a `JSONResponse` /
`HTTPException` with a status and detail string, or the 200 body
`{"data": ..., "breakdowns": ...}`. -/
inductive Resp where
  | json : Nat → String → Resp
  | ok : Series × Breakdowns → Resp
  deriving DecidableEq, Repr

def Resp.statusCode : Resp → Nat
  | .json s _ => s
  | .ok _ => 200

/-- The body of the `get_token_usage` route handler from
`backend/routes/token_usage.py`, after FastAPI has bound the query
parameters and the `get_current_user` dependency. -/
def get_token_usage (events : List TokenUsage) (user : User)
    (start_date end_date timeframe : String) : Resp :=
  match parseDate start_date, parseDate end_date with
  | some start_dt, some end_dt =>
    if dtLt end_dt start_dt then
      Resp.json 422 "Start date must be before or equal to end date."
    else
      Resp.ok (get_token_usage_aggregated events user.id start_dt end_dt timeframe)
  | _, _ => Resp.json 422 "Invalid date format. Use YYYY-MM-DD."

/-- FastAPI/pydantic-v1 handling of
`timeframe: str = Query("daily", regex="^(daily|weekly|monthly)$")`:
an omitted parameter takes the default `"daily"`; a supplied parameter is
checked with `re.match`, where `^` anchors at the start and `$` matches at
the end of the string or just before a single newline at the end of the
string — so exactly the three words, each optionally followed by one
`"\n"`, pass, and the validated value is passed through to the handler
unchanged (`none` models the 422 validation rejection). -/
def resolveTimeframe : Option String → Option String
  | none => some "daily"
  | some t =>
    if t = "daily" ∨ t = "weekly" ∨ t = "monthly"
        ∨ t = "daily\n" ∨ t = "weekly\n" ∨ t = "monthly\n" then some t
    else none

/-- The routed endpoint: FastAPI query-parameter validation (required
`start_date`/`end_date`, regex-checked defaulted `timeframe`), the
`get_current_user` dependency (401 when the middleware attached no user),
then the handler body. -/
def route_call (events : List TokenUsage) (stateUser : Option User)
    (qStart qEnd qTimeframe : Option String) : Resp :=
  match qStart, qEnd, resolveTimeframe qTimeframe with
  | some sd, some ed, some tf =>
    match stateUser with
    | none => Resp.json 401 "Not authenticated"
    | some u => get_token_usage events u sd ed tf
  | _, _, _ => Resp.json 422 "Validation error"

/-- The claims of a decoded JWT, as read by the middleware
(`payload.get("sub")`, `payload.get("username")`, `payload.get("roles", [])`). -/
structure JwtPayload where
  sub : Option String
  username : Option String
  roles : List String
  deriving DecidableEq, Repr

/-- Python truthiness test `not x` on an optional string claim. -/
def falsy : Option String → Bool
  | none => true
  | some s => s = ""

/-- `s.startswith(p)`, computed on the character lists. -/
def strStartsWith (s p : String) : Bool := p.data.isPrefixOf s.data

/-- `s[n:]` on characters; `h.split(" ", 1)[1]` for a header that starts
with `"Bearer "` is exactly `h[7:]`. -/
def strDrop (s : String) (n : Nat) : String := ⟨s.data.drop n⟩

/-- `AuthMiddleware.dispatch` from `backend/middleware/auth_middleware.py`.
`decodeToken` models `jose.jwt.decode` with the configured secret and
algorithm: it returns the payload of a well-formed, correctly signed,
unexpired token and `Except.error` (the `JWTError` branch) otherwise.
`callNext` is the downstream application, receiving `request.state.user`. -/
def dispatch (path : String) (authHeader : Option String)
    (decodeToken : String → Except Unit JwtPayload)
    (callNext : Option User → Resp) : Resp :=
  if strStartsWith path "/docs" || strStartsWith path "/openapi" || strStartsWith path "/redoc" then
    callNext none
  else
    match authHeader with
    | none => Resp.json 401 "Not authenticated"
    | some h =>
      if strStartsWith h "Bearer " then
        match decodeToken (strDrop h 7) with
        | .error _ => Resp.json 401 "Invalid or expired authentication token."
        | .ok payload =>
          if falsy payload.sub || falsy payload.username then
            Resp.json 401 "Invalid authentication token."
          else if !(payload.roles.contains "user" || payload.roles.contains "admin") then
            Resp.json 403 "Insufficient permissions."
          else
            callNext (some ⟨payload.sub.getD "", payload.username.getD "", payload.roles⟩)
      else Resp.json 401 "Not authenticated"

/-- `JWT_SECRET_KEY = os.environ.get("JWT_SECRET_KEY", "supersecretkey")`
(`backend/middleware/auth_middleware.py`, line 15), with the process
environment passed explicitly. -/
def jwtSecretKey (env : String → Option String) : String :=
  (env "JWT_SECRET_KEY").getD "supersecretkey"

/-- `JWT_ALGORITHM = os.environ.get("JWT_ALGORITHM", "HS256")` (line 16). -/
def jwtAlgorithm (env : String → Option String) : String :=
  (env "JWT_ALGORITHM").getD "HS256"

/-- A request credential the middleware denies: missing or non-Bearer
header, a token `jose.jwt.decode` rejects (malformed / bad signature /
expired), required claims missing or empty, or a role set containing
neither `"user"` nor `"admin"`. -/
def deniedCred (authHeader : Option String)
    (decodeToken : String → Except Unit JwtPayload) : Prop :=
  match authHeader with
  | none => True
  | some h =>
    strStartsWith h "Bearer " = false ∨
    match decodeToken (strDrop h 7) with
    | .error _ => True
    | .ok p =>
      falsy p.sub = true ∨ falsy p.username = true ∨
        (p.roles.contains "user" = false ∧ p.roles.contains "admin" = false)

/-! ## Theorems -/

theorem dispatch_api (authHeader : Option String)
    (dec : String → Except Unit JwtPayload) (cn : Option User → Resp) :
    dispatch "/api/token-usage" authHeader dec cn =
      match authHeader with
      | none => Resp.json 401 "Not authenticated"
      | some h =>
        if strStartsWith h "Bearer " then
          match dec (strDrop h 7) with
          | .error _ => Resp.json 401 "Invalid or expired authentication token."
          | .ok payload =>
            if falsy payload.sub || falsy payload.username then
              Resp.json 401 "Invalid authentication token."
            else if !(payload.roles.contains "user" || payload.roles.contains "admin") then
              Resp.json 403 "Insufficient permissions."
            else
              cn (some ⟨payload.sub.getD "", payload.username.getD "", payload.roles⟩)
        else Resp.json 401 "Not authenticated" := by
  have hpath : (strStartsWith "/api/token-usage" "/docs"
      || strStartsWith "/api/token-usage" "/openapi"
      || strStartsWith "/api/token-usage" "/redoc") = false := by decide
  unfold dispatch
  rw [hpath]
  rfl

/-- C8: the Identity Verifier's signing secret and algorithm are supposed
to come from explicit external configuration; evaluating the module-level
constants of `auth_middleware.py` in an environment that sets neither
variable shows the code instead falls back to the hard-coded literals
`"supersecretkey"` / `"HS256"`. -/
theorem C8_hardcoded_secret_fallback :
    jwtSecretKey (fun _ => none) = "supersecretkey" ∧
      jwtAlgorithm (fun _ => none) = "HS256" :=
  ⟨rfl, rfl⟩

/-- C7: a Bearer credential the verifier accepts, with both required
claims present and a role set containing neither `"user"` nor `"admin"`,
is rejected by the middleware with status 403 and detail
`"Insufficient permissions."`. -/
theorem C7_disjoint_roles_forbidden (h : String)
    (dec : String → Except Unit JwtPayload) (p : JwtPayload)
    (cn : Option User → Resp)
    (hb : strStartsWith h "Bearer " = true)
    (hdec : dec (strDrop h 7) = Except.ok p)
    (hsub : falsy p.sub = false) (husr : falsy p.username = false)
    (huser : p.roles.contains "user" = false)
    (hadmin : p.roles.contains "admin" = false) :
    dispatch "/api/token-usage" (some h) dec cn =
      Resp.json 403 "Insufficient permissions." := by
  have hu : "user" ∉ p.roles := by simpa using huser
  have ha : "admin" ∉ p.roles := by simpa using hadmin
  rw [dispatch_api]
  simp [hb, hdec, hsub, husr, hu, ha]

theorem C7_witness :
    dispatch "/api/token-usage" (some "Bearer tok")
        (fun _ => Except.ok ⟨some "u1", some "guestuser", ["guest"]⟩)
        (fun _ => Resp.ok ([], [])) =
      Resp.json 403 "Insufficient permissions." :=
  C7_disjoint_roles_forbidden "Bearer tok"
    (fun _ => Except.ok ⟨some "u1", some "guestuser", ["guest"]⟩)
    ⟨some "u1", some "guestuser", ["guest"]⟩ (fun _ => Resp.ok ([], []))
    (by decide) rfl (by decide) (by decide) (by decide) (by decide)

/-- C4: for every request to the endpoint whose credential the middleware
denies (missing, malformed, rejected by the verifier, missing claims, or
lacking every permitted role), the response is the same whatever the
downstream application would do — so the handler and the Usage Aggregator
are never invoked — and its status is 401 or 403. -/
theorem C4_denied_requests_short_circuit (authHeader : Option String)
    (dec : String → Except Unit JwtPayload) (cn cn' : Option User → Resp)
    (hd : deniedCred authHeader dec) :
    dispatch "/api/token-usage" authHeader dec cn =
        dispatch "/api/token-usage" authHeader dec cn' ∧
      ((dispatch "/api/token-usage" authHeader dec cn).statusCode = 401 ∨
        (dispatch "/api/token-usage" authHeader dec cn).statusCode = 403) := by
  rw [dispatch_api, dispatch_api]
  rcases authHeader with _ | h
  · exact ⟨rfl, Or.inl rfl⟩
  · simp only [deniedCred] at hd
    rcases hd with hb | hrest
    · simp [hb, Resp.statusCode]
    · cases hb : strStartsWith h "Bearer " with
      | false => simp [hb, Resp.statusCode]
      | true =>
        simp only [if_pos hb]
        cases hdec : dec (strDrop h 7) with
        | error e => simp [Resp.statusCode]
        | ok p =>
          rw [hdec] at hrest
          rcases hrest with hs | hu | ⟨h1, h2⟩
          · simp [hs, Resp.statusCode]
          · simp [hu, Resp.statusCode]
          · cases hfs : falsy p.sub with
            | true => simp [hfs, Resp.statusCode]
            | false =>
              cases hfu : falsy p.username with
              | true => simp [hfs, hfu, Resp.statusCode]
              | false =>
                have hu : "user" ∉ p.roles := by simpa using h1
                have ha : "admin" ∉ p.roles := by simpa using h2
                simp [hfs, hfu, hu, ha, Resp.statusCode]

theorem C4_witness :
    (dispatch "/api/token-usage" none (fun _ => Except.error ())
        (fun _ => Resp.ok ([], [])) =
      dispatch "/api/token-usage" none (fun _ => Except.error ())
        (fun _ => Resp.json 500 "boom")) ∧
      ((dispatch "/api/token-usage" none (fun _ => Except.error ())
        (fun _ => Resp.ok ([], []))).statusCode = 401 ∨
       (dispatch "/api/token-usage" none (fun _ => Except.error ())
        (fun _ => Resp.ok ([], []))).statusCode = 403) :=
  C4_denied_requests_short_circuit none (fun _ => Except.error ())
    (fun _ => Resp.ok ([], [])) (fun _ => Resp.json 500 "boom") trivial

/-- C5: the claim is right and the code is wrong.  Pydantic v1 checks the
`timeframe` regex with `re.match`, and Python's `$` also matches just
before a single newline at the end of the string, so the value
`"daily\n"` — a string not among `daily`, `weekly`, `monthly` — passes
request validation instead of failing with 422, reaches the service,
falls into its silent `else` branch (day granularity), and the request
succeeds with a 200 day-granularity body: the value is silently
defaulted, contradicting the claim and the spec's explicit
`never silently defaulted` rule. -/
theorem C5_newline_timeframe_silently_defaulted :
    (¬ ("daily\n" = "daily" ∨ "daily\n" = "weekly" ∨ "daily\n" = "monthly")) ∧
      resolveTimeframe (some "daily\n") = some "daily\n" ∧
      trunc_unit "daily\n" = "day" ∧
      route_call [⟨1, "alice", ⟨2024, 6, 3, 10, 0, 0⟩, 100, "chat"⟩]
          (some ⟨"alice", "alice", ["user"]⟩)
          (some "2024-06-01") (some "2024-06-10") (some "daily\n") =
        Resp.ok ([(⟨2024, 6, 3⟩, 100)], [(⟨2024, 6, 3⟩, [("chat", 100)])]) := by
  refine ⟨by decide, rfl, rfl, by decide⟩

/-- C10: omitting `timeframe` altogether behaves exactly like supplying
`timeframe=daily`: the route resolves the default and, for an otherwise
valid authenticated request, returns the 200 body computed with daily
granularity. -/
theorem C10_omitted_timeframe_defaults_daily (events : List TokenUsage)
    (u : User) (sd ed : String) (s e : DateTime)
    (hs : parseDate sd = some s) (he : parseDate ed = some e)
    (hord : ¬ dtLt e s) :
    route_call events (some u) (some sd) (some ed) none =
        route_call events (some u) (some sd) (some ed) (some "daily") ∧
      route_call events (some u) (some sd) (some ed) none =
        Resp.ok (get_token_usage_aggregated events u.id s e "daily") := by
  constructor
  · rfl
  · unfold route_call resolveTimeframe get_token_usage
    simp [hs, he, hord]

theorem C10_witness :
    route_call [⟨1, "alice", ⟨2024, 6, 3, 10, 0, 0⟩, 100, "chat"⟩]
          (some ⟨"alice", "alice", ["user"]⟩)
          (some "2024-06-01") (some "2024-06-10") none =
        route_call [⟨1, "alice", ⟨2024, 6, 3, 10, 0, 0⟩, 100, "chat"⟩]
          (some ⟨"alice", "alice", ["user"]⟩)
          (some "2024-06-01") (some "2024-06-10") (some "daily") ∧
      route_call [⟨1, "alice", ⟨2024, 6, 3, 10, 0, 0⟩, 100, "chat"⟩]
          (some ⟨"alice", "alice", ["user"]⟩)
          (some "2024-06-01") (some "2024-06-10") none =
        Resp.ok (get_token_usage_aggregated
          [⟨1, "alice", ⟨2024, 6, 3, 10, 0, 0⟩, 100, "chat"⟩] "alice"
          ⟨2024, 6, 1, 0, 0, 0⟩ ⟨2024, 6, 10, 0, 0, 0⟩ "daily") :=
  C10_omitted_timeframe_defaults_daily
    [⟨1, "alice", ⟨2024, 6, 3, 10, 0, 0⟩, 100, "chat"⟩]
    ⟨"alice", "alice", ["user"]⟩ "2024-06-01" "2024-06-10"
    ⟨2024, 6, 1, 0, 0, 0⟩ ⟨2024, 6, 10, 0, 0, 0⟩ (by decide) (by decide) (by decide)

theorem filteredEvents_factor (events : List TokenUsage) (uid : String)
    (s e : DateTime) :
    filteredEvents events uid s e =
      (events.filter fun ev => decide (ev.user_id = uid)).filter
        (fun ev => decide (dtLe s ev.usage_time) && decide (dtLe ev.usage_time e)) := by
  unfold filteredEvents
  rw [List.filter_filter]
  apply List.filter_congr
  intro ev _
  simp only [matchesQuery, Bool.decide_and]
  rw [Bool.and_comm]

theorem aggregated_congr {ev1 ev2 : List TokenUsage} (uid : String)
    (s e : DateTime) (tf : String)
    (h : filteredEvents ev1 uid s e = filteredEvents ev2 uid s e) :
    get_token_usage_aggregated ev1 uid s e tf =
      get_token_usage_aggregated ev2 uid s e tf := by
  unfold get_token_usage_aggregated seriesRows breakdownRows
  rw [h]

theorem route_congr {ev1 ev2 : List TokenUsage} (u : User)
    (qs qe qt : Option String)
    (h : ∀ s e tf, get_token_usage_aggregated ev1 u.id s e tf =
      get_token_usage_aggregated ev2 u.id s e tf) :
    route_call ev1 (some u) qs qe qt = route_call ev2 (some u) qs qe qt := by
  unfold route_call get_token_usage
  cases hq : resolveTimeframe qt with
  | none => rcases qs with _ | sd <;> rcases qe with _ | ed <;> simp [hq]
  | some tf =>
    rcases qs with _ | sd
    · simp [hq]
    · rcases qe with _ | ed
      · simp [hq]
      · simp only [hq]
        cases hs : parseDate sd with
        | none => simp [hs]
        | some s =>
          cases he : parseDate ed with
          | none => simp [hs, he]
          | some e =>
            by_cases hord : dtLt e s
            · simp [hs, he, hord]
            · simp [hs, he, hord, h]

/-- C1: the aggregation scope is always the authenticated identity's own
id: for any two event tables that agree on the authenticated user's rows,
the endpoint's response is identical for every combination of request
parameters (so rows of other users never contribute), and the response
equals the one computed from the user's own rows alone.  No request
parameter carries a caller-supplied user identifier. -/
theorem C1_scope_is_authenticated_subject (u : User) (qs qe qt : Option String)
    (ev1 ev2 : List TokenUsage)
    (h : ev1.filter (fun ev => decide (ev.user_id = u.id)) =
      ev2.filter (fun ev => decide (ev.user_id = u.id))) :
    route_call ev1 (some u) qs qe qt = route_call ev2 (some u) qs qe qt ∧
      route_call ev1 (some u) qs qe qt =
        route_call (ev1.filter (fun ev => decide (ev.user_id = u.id)))
          (some u) qs qe qt := by
  have hself : ∀ (l : List TokenUsage),
      (l.filter (fun ev => decide (ev.user_id = u.id))).filter
          (fun ev => decide (ev.user_id = u.id)) =
        l.filter (fun ev => decide (ev.user_id = u.id)) := by
    intro l
    rw [List.filter_filter]
    apply List.filter_congr
    intro ev _
    simp
  constructor
  · apply route_congr
    intro s e tf
    apply aggregated_congr
    rw [filteredEvents_factor, filteredEvents_factor, h]
  · apply route_congr
    intro s e tf
    apply aggregated_congr
    rw [filteredEvents_factor, filteredEvents_factor, hself]

theorem C1_witness :
    (route_call [⟨1, "alice", ⟨2024, 6, 3, 10, 0, 0⟩, 100, "chat"⟩,
          ⟨4, "bob", ⟨2024, 6, 3, 10, 0, 0⟩, 999, "api"⟩]
        (some ⟨"alice", "alice", ["user"]⟩)
        (some "2024-06-01") (some "2024-06-10") (some "daily") =
      route_call [⟨1, "alice", ⟨2024, 6, 3, 10, 0, 0⟩, 100, "chat"⟩,
          ⟨5, "bob", ⟨2024, 6, 4, 10, 0, 0⟩, 123, "chat"⟩]
        (some ⟨"alice", "alice", ["user"]⟩)
        (some "2024-06-01") (some "2024-06-10") (some "daily")) ∧
      route_call [⟨1, "alice", ⟨2024, 6, 3, 10, 0, 0⟩, 100, "chat"⟩,
          ⟨4, "bob", ⟨2024, 6, 3, 10, 0, 0⟩, 999, "api"⟩]
        (some ⟨"alice", "alice", ["user"]⟩)
        (some "2024-06-01") (some "2024-06-10") (some "daily") =
      route_call ([⟨1, "alice", ⟨2024, 6, 3, 10, 0, 0⟩, 100, "chat"⟩,
          ⟨4, "bob", ⟨2024, 6, 3, 10, 0, 0⟩, 999, "api"⟩].filter
            (fun ev => decide (ev.user_id = (⟨"alice", "alice", ["user"]⟩ : User).id)))
        (some ⟨"alice", "alice", ["user"]⟩)
        (some "2024-06-01") (some "2024-06-10") (some "daily") :=
  C1_scope_is_authenticated_subject ⟨"alice", "alice", ["user"]⟩
    (some "2024-06-01") (some "2024-06-10") (some "daily")
    [⟨1, "alice", ⟨2024, 6, 3, 10, 0, 0⟩, 100, "chat"⟩,
      ⟨4, "bob", ⟨2024, 6, 3, 10, 0, 0⟩, 999, "api"⟩]
    [⟨1, "alice", ⟨2024, 6, 3, 10, 0, 0⟩, 100, "chat"⟩,
      ⟨5, "bob", ⟨2024, 6, 4, 10, 0, 0⟩, 123, "chat"⟩]
    (by decide)

/-! ### Dictionary lemmas -/

theorem dictGet?_dictSet_self {α β : Type} [DecidableEq α]
    (m : List (α × β)) (k : α) (v : β) :
    dictGet? (dictSet m k v) k = some v := by
  induction m with
  | nil => simp [dictSet, dictGet?]
  | cons hd tl ih =>
    obtain ⟨k', v'⟩ := hd
    by_cases h : k = k'
    · subst h
      simp [dictSet, dictGet?]
    · simp [dictSet, dictGet?, h, ih]

theorem dictGet?_dictSet_ne {α β : Type} [DecidableEq α]
    (m : List (α × β)) (k k' : α) (v : β) (h : k' ≠ k) :
    dictGet? (dictSet m k v) k' = dictGet? m k' := by
  induction m with
  | nil => simp [dictSet, dictGet?, h]
  | cons hd tl ih =>
    obtain ⟨k0, v0⟩ := hd
    by_cases h0 : k = k0
    · subst h0
      simp [dictSet, dictGet?, h]
    · by_cases h1 : k' = k0
      · subst h1
        simp [dictSet, dictGet?, h0, if_neg (Ne.symm h0)]
      · simp [dictSet, dictGet?, h0, h1, ih]

theorem dictGet?_eq_none {α β : Type} [DecidableEq α]
    (m : List (α × β)) (k : α) (h : k ∉ m.map Prod.fst) :
    dictGet? m k = none := by
  induction m with
  | nil => rfl
  | cons hd tl ih =>
    obtain ⟨k0, v0⟩ := hd
    simp only [List.map_cons, List.mem_cons] at h
    push_neg at h
    simp [dictGet?, h.1, ih h.2]

theorem dictSet_of_not_mem {α β : Type} [DecidableEq α]
    (m : List (α × β)) (k : α) (v : β) (h : k ∉ m.map Prod.fst) :
    dictSet m k v = m ++ [(k, v)] := by
  induction m with
  | nil => rfl
  | cons hd tl ih =>
    obtain ⟨k0, v0⟩ := hd
    simp only [List.map_cons, List.mem_cons] at h
    push_neg at h
    simp [dictSet, h.1, ih h.2]

/-! ### Summation lemmas -/

theorem sum_map_filter_split {α : Type} (l : List α) (p : α → Bool) (w : α → Int) :
    ((l.filter p).map w).sum + ((l.filter fun x => !p x).map w).sum = (l.map w).sum := by
  induction l with
  | nil => rfl
  | cons x xs ih =>
    cases hx : p x <;>
      simp [List.filter_cons, hx, List.sum_cons, ← ih] <;> ring

theorem sum_partition {α κ : Type} [DecidableEq κ]
    (K : List κ) (l : List α) (g : α → κ) (w : α → Int)
    (hK : K.Nodup) (hl : ∀ x ∈ l, g x ∈ K) :
    (K.map fun k => ((l.filter fun x => decide (g x = k)).map w).sum).sum =
      (l.map w).sum := by
  induction K generalizing l with
  | nil =>
    have : l = [] := by
      cases l with
      | nil => rfl
      | cons x xs => exact absurd (hl x (by simp)) (by simp)
    simp [this]
  | cons k K ih =>
    have hnd := hK
    simp only [List.nodup_cons] at hnd
    have hsplit := sum_map_filter_split l (fun x => decide (g x = k)) w
    have hrest : ∀ x ∈ l.filter (fun x => !decide (g x = k)), g x ∈ K := by
      intro x hx
      rw [List.mem_filter] at hx
      have := hl x hx.1
      simp only [List.mem_cons] at this
      rcases this with h | h
      · exfalso
        simp [h] at hx
      · exact h
    have hterm : ∀ k' ∈ K,
        (l.filter fun x => decide (g x = k')) =
          ((l.filter fun x => !decide (g x = k)).filter fun x => decide (g x = k')) := by
      intro k' hk'
      rw [List.filter_filter]
      apply List.filter_congr
      intro x _
      by_cases hgx : g x = k'
      · have hkk : k' ≠ k := fun hc => hnd.1 (hc ▸ hk')
        have : g x ≠ k := fun hc => hkk (hgx.symm.trans hc)
        simp [hgx, this, hkk]
      · simp [hgx]
    calc (List.map (fun k' => ((l.filter fun x => decide (g x = k')).map w).sum) (k :: K)).sum
        = ((l.filter fun x => decide (g x = k)).map w).sum +
            (K.map fun k' => ((l.filter fun x => decide (g x = k')).map w).sum).sum := by
          simp [List.sum_cons]
      _ = ((l.filter fun x => decide (g x = k)).map w).sum +
            (K.map fun k' =>
              (((l.filter fun x => !decide (g x = k)).filter
                fun x => decide (g x = k')).map w).sum).sum := by
          congr 1
          apply congrArg
          exact List.map_congr_left fun k' hk' => by rw [hterm k' hk']
      _ = ((l.filter fun x => decide (g x = k)).map w).sum +
            ((l.filter fun x => !decide (g x = k)).map w).sum := by
          rw [ih _ hnd.2 hrest]
      _ = (l.map w).sum := hsplit

/-! ### Characterization of the breakdown-building loop -/

theorem foldl_dictSet_eq_append
    (rs : List ((DateTime × String) × Int)) (m : List (String × Int))
    (hfresh : ∀ r ∈ rs, r.1.2 ∉ m.map Prod.fst)
    (hnd : (rs.map fun r => r.1.2).Nodup) :
    rs.foldl (fun acc r => dictSet acc r.1.2 r.2) m =
      m ++ rs.map fun r => (r.1.2, r.2) := by
  induction rs generalizing m with
  | nil => simp
  | cons r rs ih =>
    simp only [List.foldl_cons]
    rw [dictSet_of_not_mem _ _ _ (hfresh r (by simp))]
    rw [ih]
    · simp
    · intro r' hr'
      simp only [List.map_append, List.map_cons, List.map_nil, List.mem_append,
        List.mem_cons, List.not_mem_nil]
      push_neg
      refine ⟨hfresh r' (by simp [hr']), ?_, by simp⟩
      simp only [List.map_cons, List.nodup_cons] at hnd
      intro hc
      exact hnd.1 (hc ▸ List.mem_map_of_mem (fun r => r.1.2) hr')
    · simp only [List.map_cons, List.nodup_cons] at hnd
      exact hnd.2

theorem bdGet_foldl (rows : List ((DateTime × String) × Int))
    (bd0 : Breakdowns) (d : DateKey) :
    dictGet? (rows.foldl bdStep bd0) d =
      (if (rows.filter fun r => decide (formatDate r.1.1 = d)) = [] then
        dictGet? bd0 d
      else
        some ((rows.filter fun r => decide (formatDate r.1.1 = d)).foldl
          (fun m r => dictSet m r.1.2 r.2) ((dictGet? bd0 d).getD []))) := by
  induction rows generalizing bd0 with
  | nil => simp
  | cons r rows ih =>
    by_cases hd : formatDate r.1.1 = d
    · have hstep : dictGet? (bdStep bd0 r) d =
          some (dictSet ((dictGet? bd0 d).getD []) r.1.2 r.2) := by
        unfold bdStep
        rw [hd, dictGet?_dictSet_self]
      have hfilt : ((r :: rows).filter fun r => decide (formatDate r.1.1 = d)) =
          r :: (rows.filter fun r => decide (formatDate r.1.1 = d)) := by
        simp [List.filter_cons, hd]
      simp only [List.foldl_cons]
      rw [ih, hfilt]
      by_cases hrest : (rows.filter fun r => decide (formatDate r.1.1 = d)) = []
      · simp [hrest, hstep]
      · simp [hrest, hstep]
    · have hstep : dictGet? (bdStep bd0 r) d = dictGet? bd0 d := by
        unfold bdStep
        exact dictGet?_dictSet_ne _ _ _ _ (fun hc => hd hc.symm)
      have hfilt : ((r :: rows).filter fun r => decide (formatDate r.1.1 = d)) =
          rows.filter fun r => decide (formatDate r.1.1 = d) := by
        simp [List.filter_cons, hd]
      simp only [List.foldl_cons]
      rw [ih, hfilt, hstep]

/-! ### Association-list lookups over key-mapped lists -/

theorem dictGet?_keyed_map_mem {α κ β : Type} [DecidableEq κ]
    (L : List α) (kf : α → κ) (v : α → β) (hnd : (L.map kf).Nodup)
    {p : α} (hp : p ∈ L) :
    dictGet? (L.map fun x => (kf x, v x)) (kf p) = some (v p) := by
  induction L with
  | nil => cases hp
  | cons x xs ih =>
    simp only [List.map_cons, List.nodup_cons] at hnd
    rcases List.mem_cons.mp hp with rfl | hp'
    · simp [dictGet?]
    · have hne : kf p ≠ kf x := fun hc => hnd.1 (hc ▸ List.mem_map_of_mem kf hp')
      simp [dictGet?, hne, ih hnd.2 hp']

theorem dictGet?_keyed_map_not_mem {α κ β : Type} [DecidableEq κ]
    (L : List α) (kf : α → κ) (v : α → β) {d : κ} (hd : d ∉ L.map kf) :
    dictGet? (L.map fun x => (kf x, v x)) d = none := by
  apply dictGet?_eq_none
  simpa [List.map_map, Function.comp_def] using hd

/-! ### Facts about truncated timestamps -/

theorem dateTrunc_isTrunc (unit : String) (t : DateTime) :
    isTrunc (dateTrunc unit t) := by
  unfold dateTrunc
  split_ifs <;> simp [isTrunc, weekTrunc]

theorem isTrunc_formatDate_inj {p q : DateTime} (hp : isTrunc p) (hq : isTrunc q)
    (h : formatDate p = formatDate q) : p = q := by
  obtain ⟨hp1, hp2, hp3⟩ := hp
  obtain ⟨hq1, hq2, hq3⟩ := hq
  cases p
  cases q
  simp only [formatDate, DateKey.mk.injEq] at h
  simp_all

theorem isTrunc_key_lt {p q : DateTime} (hp : isTrunc p) (hq : isTrunc q) :
    p.key < q.key ↔ (formatDate p).key < (formatDate q).key := by
  obtain ⟨hp1, hp2, hp3⟩ := hp
  obtain ⟨hq1, hq2, hq3⟩ := hq
  cases p
  cases q
  simp only at hp1 hp2 hp3 hq1 hq2 hq3
  subst hp1 hp2 hp3 hq1 hq2 hq3
  simp only [DateTime.key, DateKey.key, formatDate, Prod.Lex.lt_iff, toLex_inj,
    Prod.mk.injEq, lt_self_iff_false, and_false, or_false, and_true]

/-! ### The central lookup characterization shared by the two queries -/

theorem agg_lookup (F : List TokenUsage) (g : TokenUsage → DateTime)
    (hg : ∀ ev, isTrunc (g ev)) (d : DateKey) :
    Option.map sumValues
        (dictGet? (buildBreakdowns
          ((List.insertionSort pairLe ((F.map fun ev => (g ev, ev.activity)).dedup)).map
            fun k => (k, ((F.filter fun ev =>
              decide ((g ev, ev.activity) = k)).map fun ev => ev.tokens_used).sum))) d) =
      dictGet? ((List.insertionSort dtLe ((F.map g).dedup)).map
        fun p => (formatDate p, ((F.filter fun ev =>
          decide (g ev = p)).map fun ev => ev.tokens_used).sum)) d := by
  set K1 := List.insertionSort dtLe ((F.map g).dedup) with hK1def
  set K2 := List.insertionSort pairLe ((F.map fun ev => (g ev, ev.activity)).dedup)
    with hK2def
  have hK1mem : ∀ p, p ∈ K1 ↔ p ∈ F.map g := by
    intro p
    rw [hK1def, List.mem_insertionSort, List.mem_dedup]
  have hK2mem : ∀ k, k ∈ K2 ↔ k ∈ F.map fun ev => (g ev, ev.activity) := by
    intro k
    rw [hK2def, List.mem_insertionSort, List.mem_dedup]
  have hK1nodup : K1.Nodup := by
    rw [hK1def, (List.perm_insertionSort _ _).nodup_iff]
    exact List.nodup_dedup _
  have hK2nodup : K2.Nodup := by
    rw [hK2def, (List.perm_insertionSort _ _).nodup_iff]
    exact List.nodup_dedup _
  have hK1trunc : ∀ p ∈ K1, isTrunc p := by
    intro p hp
    rcases List.mem_map.mp ((hK1mem p).mp hp) with ⟨ev, _, rfl⟩
    exact hg ev
  have hK2trunc : ∀ k ∈ K2, isTrunc k.1 := by
    intro k hk
    rcases List.mem_map.mp ((hK2mem k).mp hk) with ⟨ev, _, rfl⟩
    exact hg ev
  unfold buildBreakdowns
  rw [bdGet_foldl]
  by_cases hex : ∃ ev ∈ F, formatDate (g ev) = d
  · obtain ⟨ev0, hev0, hd0⟩ := hex
    have hkeysnd : (K1.map formatDate).Nodup :=
      hK1nodup.map_on fun x hx y hy hxy =>
        isTrunc_formatDate_inj (hK1trunc x hx) (hK1trunc y hy) hxy
    have hp1 : g ev0 ∈ K1 := (hK1mem _).mpr (List.mem_map_of_mem g hev0)
    have hser := dictGet?_keyed_map_mem K1 formatDate
      (fun p => ((F.filter fun ev => decide (g ev = p)).map fun ev => ev.tokens_used).sum)
      hkeysnd hp1
    rw [← hd0, hser]
    set K2d := K2.filter fun k => decide (formatDate k.1 = formatDate (g ev0)) with hK2d
    have hrs : ((K2.map fun k => (k, ((F.filter fun ev =>
          decide ((g ev, ev.activity) = k)).map fun ev => ev.tokens_used).sum)).filter
            fun r => decide (formatDate r.1.1 = formatDate (g ev0))) =
        K2d.map fun k => (k, ((F.filter fun ev =>
          decide ((g ev, ev.activity) = k)).map fun ev => ev.tokens_used).sum) := by
      rw [List.filter_map]
      rfl
    have hk0 : (g ev0, ev0.activity) ∈ K2d := by
      rw [hK2d, List.mem_filter]
      exact ⟨(hK2mem _).mpr (List.mem_map_of_mem _ hev0), by simp⟩
    have hK2dne : (K2d.map fun k => (k, ((F.filter fun ev =>
        decide ((g ev, ev.activity) = k)).map fun ev => ev.tokens_used).sum)) ≠ [] := by
      intro hc
      rw [List.map_eq_nil_iff] at hc
      exact List.ne_nil_of_mem hk0 hc
    rw [hrs, if_neg hK2dne]
    have hfirst : ∀ k ∈ K2d, k.1 = g ev0 := by
      intro k hk
      rw [hK2d, List.mem_filter] at hk
      have hkf : formatDate k.1 = formatDate (g ev0) := by
        have := hk.2
        simpa using this
      exact isTrunc_formatDate_inj (hK2trunc k hk.1) (hg ev0) hkf
    have hK2dnodup : K2d.Nodup := hK2nodup.filter _
    have hAnodup : (K2d.map fun k => k.2).Nodup := by
      apply hK2dnodup.map_on
      intro x hx y hy hxy
      have h1 := hfirst x hx
      have h2 := hfirst y hy
      obtain ⟨x1, x2⟩ := x
      obtain ⟨y1, y2⟩ := y
      simp only at h1 h2 hxy
      rw [h1, h2, hxy]
    have hinner := foldl_dictSet_eq_append
      (K2d.map fun k => (k, ((F.filter fun ev =>
        decide ((g ev, ev.activity) = k)).map fun ev => ev.tokens_used).sum)) []
      (by simp)
      (by
        rw [List.map_map]
        exact hAnodup)
    rw [show ((dictGet? ([] : Breakdowns) (formatDate (g ev0))).getD []) = [] from rfl,
      hinner]
    simp only [List.nil_append, Option.map_some']
    refine congrArg some ?_
    unfold sumValues
    rw [List.map_map, List.map_map]
    show (K2d.map fun k => ((F.filter fun ev =>
        decide ((g ev, ev.activity) = k)).map fun ev => ev.tokens_used).sum).sum =
      ((F.filter fun ev => decide (g ev = g ev0)).map fun ev => ev.tokens_used).sum
    have hterm : ∀ k ∈ K2d, ((F.filter fun ev =>
        decide ((g ev, ev.activity) = k)).map fun ev => ev.tokens_used).sum =
      (((F.filter fun ev => decide (g ev = g ev0)).filter
        fun ev => decide (ev.activity = k.2)).map fun ev => ev.tokens_used).sum := by
      intro k hk
      have hfk := hfirst k hk
      obtain ⟨k1, k2⟩ := k
      simp only at hfk
      subst hfk
      rw [List.filter_filter]
      refine congrArg List.sum (congrArg (List.map _) ?_)
      apply List.filter_congr
      intro ev _
      simp [Prod.mk.injEq, Bool.decide_and, Bool.and_comm]
    rw [List.map_congr_left hterm]
    have hmm : (K2d.map fun k => (((F.filter fun ev => decide (g ev = g ev0)).filter
        fun ev => decide (ev.activity = k.2)).map fun ev => ev.tokens_used).sum) =
      ((K2d.map fun k => k.2).map fun a => (((F.filter fun ev =>
        decide (g ev = g ev0)).filter
          fun ev => decide (ev.activity = a)).map fun ev => ev.tokens_used).sum) := by
      rw [List.map_map]
      rfl
    rw [hmm]
    apply sum_partition (K2d.map fun k => k.2)
      (F.filter fun ev => decide (g ev = g ev0)) (fun ev => ev.activity)
      (fun ev => ev.tokens_used) hAnodup
    intro x hx
    rw [List.mem_filter] at hx
    have hgx : g x = g ev0 := by simpa using hx.2
    have hxk2 : (g x, x.activity) ∈ K2 :=
      (hK2mem _).mpr (List.mem_map_of_mem _ hx.1)
    have hxk2d : (g x, x.activity) ∈ K2d := by
      rw [hK2d, List.mem_filter]
      exact ⟨hxk2, by simp [hgx]⟩
    exact List.mem_map_of_mem (fun k => k.2) hxk2d
  · have hser : dictGet? (K1.map fun p => (formatDate p, ((F.filter fun ev =>
        decide (g ev = p)).map fun ev => ev.tokens_used).sum)) d = none := by
      apply dictGet?_keyed_map_not_mem
      intro hmem
      rcases List.mem_map.mp hmem with ⟨p, hp, hpd⟩
      rcases List.mem_map.mp ((hK1mem p).mp hp) with ⟨ev, hev, rfl⟩
      exact hex ⟨ev, hev, hpd⟩
    have hfilt : ((K2.map fun k => (k, ((F.filter fun ev =>
        decide ((g ev, ev.activity) = k)).map fun ev => ev.tokens_used).sum)).filter
          fun r => decide (formatDate r.1.1 = d)) = [] := by
      apply List.filter_eq_nil_iff.mpr
      intro r hr
      rcases List.mem_map.mp hr with ⟨k, hk, rfl⟩
      rcases List.mem_map.mp ((hK2mem k).mp hk) with ⟨ev, hev, rfl⟩
      simp only [decide_eq_true_eq]
      intro hc
      exact hex ⟨ev, hev, hc⟩
    rw [hfilt, if_pos rfl, hser]
    rfl

theorem dictGet?_isSome_mem {α β : Type} [DecidableEq α]
    (m : List (α × β)) (k : α) (h : (dictGet? m k).isSome = true) :
    k ∈ m.map Prod.fst := by
  by_contra hc
  rw [dictGet?_eq_none _ _ hc] at h
  cases h

/-- C2: for every aggregation input and every bucket key, summing the
breakdown mapping of that bucket gives exactly the series entry of that
bucket — in particular a bucket key is present in `breakdowns` precisely
when it is present in the series. -/
theorem C2_breakdown_sums_match_series (events : List TokenUsage)
    (uid : String) (s e : DateTime) (tf : String) (d : DateKey) :
    Option.map sumValues
        (dictGet? (get_token_usage_aggregated events uid s e tf).2 d) =
      dictGet? (get_token_usage_aggregated events uid s e tf).1 d := by
  simp only [get_token_usage_aggregated, seriesRows, breakdownRows, List.map_map]
  exact agg_lookup (filteredEvents events uid s e)
    (fun ev => dateTrunc (trunc_unit tf) ev.usage_time)
    (fun ev => dateTrunc_isTrunc _ _) d

theorem series_keys_nodup (F : List TokenUsage) (g : TokenUsage → DateTime)
    (hg : ∀ ev, isTrunc (g ev)) :
    ((List.insertionSort dtLe ((F.map g).dedup)).map formatDate).Nodup := by
  have hnd : (List.insertionSort dtLe ((F.map g).dedup)).Nodup := by
    rw [(List.perm_insertionSort _ _).nodup_iff]
    exact List.nodup_dedup _
  apply hnd.map_on
  intro x hx y hy hxy
  rw [List.mem_insertionSort, List.mem_dedup] at hx hy
  rcases List.mem_map.mp hx with ⟨ev, _, rfl⟩
  rcases List.mem_map.mp hy with ⟨ev', _, rfl⟩
  exact isTrunc_formatDate_inj (hg ev) (hg ev') hxy

theorem series_lookup_bucket (F : List TokenUsage) (g : TokenUsage → DateTime)
    (hg : ∀ ev, isTrunc (g ev)) {ev : TokenUsage} (hev : ev ∈ F) :
    dictGet? ((List.insertionSort dtLe ((F.map g).dedup)).map
        fun p => (formatDate p, ((F.filter fun x =>
          decide (g x = p)).map fun x => x.tokens_used).sum)) (formatDate (g ev)) =
      some (((F.filter fun x => decide (g x = g ev)).map fun x => x.tokens_used).sum) := by
  have hp1 : g ev ∈ List.insertionSort dtLe ((F.map g).dedup) := by
    rw [List.mem_insertionSort, List.mem_dedup]
    exact List.mem_map_of_mem g hev
  exact dictGet?_keyed_map_mem _ formatDate
    (fun p => ((F.filter fun x => decide (g x = p)).map fun x => x.tokens_used).sum)
    (series_keys_nodup F g hg) hp1

/-- C6: a valid authenticated request whose range matches no event of the
scoped user succeeds with an empty series and an empty breakdowns mapping,
and in general a bucket key appears in the series only when some event of
the scoped user inside the inclusive range truncates into it — there are
no synthetic zero-filled buckets. -/
theorem C6_empty_and_sparse (events : List TokenUsage) (u : User)
    (sd ed : String) (qt : Option String) (tf : String) (s e : DateTime)
    (hs : parseDate sd = some s) (he : parseDate ed = some e)
    (hord : ¬ dtLt e s) (hq : resolveTimeframe qt = some tf)
    (hempty : filteredEvents events u.id s e = []) :
    route_call events (some u) (some sd) (some ed) qt = Resp.ok ([], []) ∧
      ∀ (events' : List TokenUsage) (uid : String) (s' e' : DateTime)
        (tf' : String) (d : DateKey),
        (dictGet? (get_token_usage_aggregated events' uid s' e' tf').1 d).isSome = true →
        ∃ ev, ev ∈ events' ∧ matchesQuery uid s' e' ev ∧
          formatDate (dateTrunc (trunc_unit tf') ev.usage_time) = d := by
  constructor
  · have hagg : get_token_usage_aggregated events u.id s e tf = ([], []) := by
      unfold get_token_usage_aggregated seriesRows breakdownRows buildBreakdowns
      rw [hempty]
      simp [List.insertionSort]
    unfold route_call get_token_usage
    rw [hq]
    simp [hs, he, hord, hagg]
  · intro events' uid s' e' tf' d hsome
    simp only [get_token_usage_aggregated, seriesRows, List.map_map] at hsome
    have hmem := dictGet?_isSome_mem _ _ hsome
    rw [List.map_map] at hmem
    rcases List.mem_map.mp hmem with ⟨p, hp, hpd⟩
    rw [List.mem_insertionSort, List.mem_dedup] at hp
    rcases List.mem_map.mp hp with ⟨ev, hev, rfl⟩
    simp only [filteredEvents, List.mem_filter] at hev
    exact ⟨ev, hev.1, by simpa using hev.2, hpd⟩

theorem C6_witness :
    route_call [⟨4, "bob", ⟨2024, 6, 3, 10, 0, 0⟩, 999, "api"⟩]
        (some ⟨"alice", "alice", ["user"]⟩)
        (some "2024-06-01") (some "2024-06-10") (some "daily") = Resp.ok ([], []) ∧
      ∀ (events' : List TokenUsage) (uid : String) (s' e' : DateTime)
        (tf' : String) (d : DateKey),
        (dictGet? (get_token_usage_aggregated events' uid s' e' tf').1 d).isSome = true →
        ∃ ev, ev ∈ events' ∧ matchesQuery uid s' e' ev ∧
          formatDate (dateTrunc (trunc_unit tf') ev.usage_time) = d :=
  C6_empty_and_sparse [⟨4, "bob", ⟨2024, 6, 3, 10, 0, 0⟩, 999, "api"⟩]
    ⟨"alice", "alice", ["user"]⟩ "2024-06-01" "2024-06-10" (some "daily") "daily"
    ⟨2024, 6, 1, 0, 0, 0⟩ ⟨2024, 6, 10, 0, 0, 0⟩
    (by decide) (by decide) (by decide) (by decide) (by decide)

theorem mkDate_time_zero {y m d : Nat} {dt : DateTime} (h : mkDate y m d = some dt) :
    dt.hour = 0 ∧ dt.minute = 0 ∧ dt.second = 0 := by
  unfold mkDate at h
  split_ifs at h
  · injection h with h'
    subst h'
    exact ⟨rfl, rfl, rfl⟩

theorem parseDate_time_zero {ds : String} {dt : DateTime}
    (h : parseDate ds = some dt) :
    dt.hour = 0 ∧ dt.minute = 0 ∧ dt.second = 0 := by
  unfold parseDate at h
  split at h
  all_goals try (split at h)
  all_goals first
    | exact mkDate_time_zero h
    | exact absurd h (by simp)

/-- C3 (as stated by the spec claim) is false of the code: the route
parses `end_date` to midnight and the query uses `usage_time <= :end_date`,
so an event of the scoped user at 12:00 on the `range_end` date itself
contributes nothing — here the whole result is empty even though the
claim asserts the event's 100 tokens appear in its daily bucket. -/
theorem C3_counterexample :
    route_call [⟨1, "alice", ⟨2024, 6, 5, 12, 0, 0⟩, 100, "chat"⟩]
        (some ⟨"alice", "alice", ["user"]⟩)
        (some "2024-06-01") (some "2024-06-05") (some "daily") =
      Resp.ok ([], []) := by decide

/-- C3 (amended): the range bounds are the parsed timestamps — both are
midnight of their dates, so the window is `[range_start 00:00:00,
range_end 00:00:00]`.  No event outside that timestamp window contributes
anything, and every event of the scoped user inside it (which on the
`range_end` date means only exactly midnight) contributes its tokens to
its bucket's total. -/
theorem C3_inclusive_timestamp_window (events : List TokenUsage)
    (uid : String) (s e : DateTime) (tf : String) :
    (get_token_usage_aggregated events uid s e tf =
        get_token_usage_aggregated
          (events.filter fun ev => decide (matchesQuery uid s e ev)) uid s e tf) ∧
      (∀ ev ∈ events, matchesQuery uid s e ev →
        ev ∈ (filteredEvents events uid s e).filter
            (fun x => decide (dateTrunc (trunc_unit tf) x.usage_time =
              dateTrunc (trunc_unit tf) ev.usage_time)) ∧
          dictGet? (get_token_usage_aggregated events uid s e tf).1
              (formatDate (dateTrunc (trunc_unit tf) ev.usage_time)) =
            some ((((filteredEvents events uid s e).filter
              (fun x => decide (dateTrunc (trunc_unit tf) x.usage_time =
                dateTrunc (trunc_unit tf) ev.usage_time))).map
                  fun x => x.tokens_used).sum)) ∧
      (∀ (ds : String) (dt : DateTime), parseDate ds = some dt →
        dt.hour = 0 ∧ dt.minute = 0 ∧ dt.second = 0) := by
  refine ⟨?_, ?_, fun ds dt h => parseDate_time_zero h⟩
  · apply aggregated_congr
    unfold filteredEvents
    rw [List.filter_filter]
    symm
    apply List.filter_congr
    intro ev _
    rw [Bool.and_self]
  · intro ev hev hm
    have hF : ev ∈ filteredEvents events uid s e := by
      unfold filteredEvents
      rw [List.mem_filter]
      exact ⟨hev, by simpa using hm⟩
    refine ⟨by rw [List.mem_filter]; exact ⟨hF, by simp⟩, ?_⟩
    simp only [get_token_usage_aggregated, seriesRows, List.map_map]
    exact series_lookup_bucket (filteredEvents events uid s e)
      (fun x => dateTrunc (trunc_unit tf) x.usage_time)
      (fun x => dateTrunc_isTrunc _ _) hF

theorem C3_witness :
    (⟨1, "alice", ⟨2024, 6, 5, 0, 0, 0⟩, 100, "chat"⟩ : TokenUsage) ∈
        (filteredEvents [⟨1, "alice", ⟨2024, 6, 5, 0, 0, 0⟩, 100, "chat"⟩]
          "alice" ⟨2024, 6, 1, 0, 0, 0⟩ ⟨2024, 6, 5, 0, 0, 0⟩).filter
            (fun x => decide (dateTrunc (trunc_unit "daily") x.usage_time =
              dateTrunc (trunc_unit "daily")
                (⟨1, "alice", ⟨2024, 6, 5, 0, 0, 0⟩, 100, "chat"⟩ :
                  TokenUsage).usage_time)) ∧
      dictGet? (get_token_usage_aggregated
          [⟨1, "alice", ⟨2024, 6, 5, 0, 0, 0⟩, 100, "chat"⟩] "alice"
          ⟨2024, 6, 1, 0, 0, 0⟩ ⟨2024, 6, 5, 0, 0, 0⟩ "daily").1
          (formatDate (dateTrunc (trunc_unit "daily")
            (⟨1, "alice", ⟨2024, 6, 5, 0, 0, 0⟩, 100, "chat"⟩ :
              TokenUsage).usage_time)) =
        some ((((filteredEvents [⟨1, "alice", ⟨2024, 6, 5, 0, 0, 0⟩, 100, "chat"⟩]
          "alice" ⟨2024, 6, 1, 0, 0, 0⟩ ⟨2024, 6, 5, 0, 0, 0⟩).filter
            (fun x => decide (dateTrunc (trunc_unit "daily") x.usage_time =
              dateTrunc (trunc_unit "daily")
                (⟨1, "alice", ⟨2024, 6, 5, 0, 0, 0⟩, 100, "chat"⟩ :
                  TokenUsage).usage_time))).map fun x => x.tokens_used).sum) :=
  (C3_inclusive_timestamp_window
      [⟨1, "alice", ⟨2024, 6, 5, 0, 0, 0⟩, 100, "chat"⟩] "alice"
      ⟨2024, 6, 1, 0, 0, 0⟩ ⟨2024, 6, 5, 0, 0, 0⟩ "daily").2.1
    ⟨1, "alice", ⟨2024, 6, 5, 0, 0, 0⟩, 100, "chat"⟩
    (by decide) (by decide)

theorem breakdown_lookup_inner (F : List TokenUsage) (g : TokenUsage → DateTime)
    (hg : ∀ ev, isTrunc (g ev)) (d : DateKey) (inner : List (String × Int))
    (h : dictGet? (buildBreakdowns
        ((List.insertionSort pairLe ((F.map fun ev => (g ev, ev.activity)).dedup)).map
          fun k => (k, ((F.filter fun ev =>
            decide ((g ev, ev.activity) = k)).map fun ev => ev.tokens_used).sum))) d =
      some inner) :
    inner = ((List.insertionSort pairLe
        ((F.map fun ev => (g ev, ev.activity)).dedup)).filter
          fun k => decide (formatDate k.1 = d)).map
        fun k => (k.2, ((F.filter fun ev =>
          decide ((g ev, ev.activity) = k)).map fun ev => ev.tokens_used).sum) := by
  set K2 := List.insertionSort pairLe ((F.map fun ev => (g ev, ev.activity)).dedup)
    with hK2def
  have hK2mem : ∀ k, k ∈ K2 ↔ k ∈ F.map fun ev => (g ev, ev.activity) := by
    intro k
    rw [hK2def, List.mem_insertionSort, List.mem_dedup]
  have hK2trunc : ∀ k ∈ K2, isTrunc k.1 := by
    intro k hk
    rcases List.mem_map.mp ((hK2mem k).mp hk) with ⟨ev, _, rfl⟩
    exact hg ev
  have hK2nodup : K2.Nodup := by
    rw [hK2def, (List.perm_insertionSort _ _).nodup_iff]
    exact List.nodup_dedup _
  set K2d := K2.filter fun k => decide (formatDate k.1 = d) with hK2d
  unfold buildBreakdowns at h
  rw [bdGet_foldl] at h
  have hrs : ((K2.map fun k => (k, ((F.filter fun ev =>
        decide ((g ev, ev.activity) = k)).map fun ev => ev.tokens_used).sum)).filter
          fun r => decide (formatDate r.1.1 = d)) =
      K2d.map fun k => (k, ((F.filter fun ev =>
        decide ((g ev, ev.activity) = k)).map fun ev => ev.tokens_used).sum) := by
    rw [List.filter_map]
    rfl
  rw [hrs] at h
  by_cases hne : (K2d.map fun k => (k, ((F.filter fun ev =>
      decide ((g ev, ev.activity) = k)).map fun ev => ev.tokens_used).sum)) = []
  · rw [if_pos hne] at h
    cases h
  · rw [if_neg hne] at h
    have hK2dne : K2d ≠ [] := by
      intro hc
      apply hne
      rw [hc]
      rfl
    obtain ⟨k0, hk0⟩ := List.exists_mem_of_ne_nil K2d hK2dne
    have hfmt : ∀ k ∈ K2d, formatDate k.1 = d := by
      intro k hk
      have := (List.mem_filter.mp hk).2
      simpa using this
    have hfirst : ∀ k ∈ K2d, k.1 = k0.1 := by
      intro k hk
      exact isTrunc_formatDate_inj
        (hK2trunc k (List.mem_of_mem_filter hk))
        (hK2trunc k0 (List.mem_of_mem_filter hk0))
        ((hfmt k hk).trans (hfmt k0 hk0).symm)
    have hK2dnodup : K2d.Nodup := hK2nodup.filter _
    have hAnodup : (K2d.map fun k => k.2).Nodup := by
      apply hK2dnodup.map_on
      intro x hx y hy hxy
      have h1 := hfirst x hx
      have h2 := hfirst y hy
      obtain ⟨x1, x2⟩ := x
      obtain ⟨y1, y2⟩ := y
      simp only at h1 h2 hxy
      rw [h1, h2, hxy]
    rw [show ((dictGet? ([] : Breakdowns) d).getD []) = [] from rfl] at h
    rw [foldl_dictSet_eq_append _ [] (by simp)
      (by rw [List.map_map]; exact hAnodup)] at h
    rw [List.nil_append, List.map_map] at h
    injection h with h'
    exact h'.symm

/-- C9: the aggregation is a pure function of the event table and the
request (two evaluations coincide), the series is strictly ascending by
bucket key, and within every bucket of the breakdowns the activity keys
are strictly ascending in codepoint order — so repeated identical requests
produce the identical ordered output. -/
theorem C9_deterministic_ordered (events : List TokenUsage) (uid : String)
    (s e : DateTime) (tf : String) :
    (get_token_usage_aggregated events uid s e tf =
        get_token_usage_aggregated events uid s e tf) ∧
      List.Pairwise (fun a b : DateKey × Int => dkLt a.1 b.1)
        (get_token_usage_aggregated events uid s e tf).1 ∧
      ∀ (d : DateKey) (inner : List (String × Int)),
        dictGet? (get_token_usage_aggregated events uid s e tf).2 d = some inner →
        List.Pairwise (fun x y : String × Int => strLt x.1 y.1) inner := by
  refine ⟨rfl, ?_, ?_⟩
  · simp only [get_token_usage_aggregated, seriesRows, List.map_map]
    rw [List.pairwise_map]
    have hsorted : List.Pairwise dtLe
        (List.insertionSort dtLe (((filteredEvents events uid s e).map
          fun ev => dateTrunc (trunc_unit tf) ev.usage_time).dedup)) :=
      List.sorted_insertionSort _ _
    have hnd : (List.insertionSort dtLe (((filteredEvents events uid s e).map
        fun ev => dateTrunc (trunc_unit tf) ev.usage_time).dedup)).Nodup := by
      rw [(List.perm_insertionSort _ _).nodup_iff]
      exact List.nodup_dedup _
    refine (hsorted.and hnd).imp_of_mem ?_
    intro a b ha hb hab
    have hta : isTrunc a := by
      rw [List.mem_insertionSort, List.mem_dedup] at ha
      rcases List.mem_map.mp ha with ⟨ev, _, rfl⟩
      exact dateTrunc_isTrunc _ _
    have htb : isTrunc b := by
      rw [List.mem_insertionSort, List.mem_dedup] at hb
      rcases List.mem_map.mp hb with ⟨ev, _, rfl⟩
      exact dateTrunc_isTrunc _ _
    have hlt : a.key < b.key :=
      lt_of_le_of_ne hab.1 fun hc => hab.2 (DateTime.key_inj hc)
    exact (isTrunc_key_lt hta htb).mp hlt
  · intro d inner h
    simp only [get_token_usage_aggregated, breakdownRows] at h
    have hchar := breakdown_lookup_inner (filteredEvents events uid s e)
      (fun ev => dateTrunc (trunc_unit tf) ev.usage_time)
      (fun ev => dateTrunc_isTrunc _ _) d inner h
    rw [hchar, List.pairwise_map]
    have hsorted : List.Pairwise pairLe
        (List.insertionSort pairLe (((filteredEvents events uid s e).map
          fun ev => (dateTrunc (trunc_unit tf) ev.usage_time, ev.activity)).dedup)) :=
      List.sorted_insertionSort _ _
    have hnd : (List.insertionSort pairLe (((filteredEvents events uid s e).map
        fun ev => (dateTrunc (trunc_unit tf) ev.usage_time, ev.activity)).dedup)).Nodup := by
      rw [(List.perm_insertionSort _ _).nodup_iff]
      exact List.nodup_dedup _
    refine ((hsorted.and hnd).filter _).imp_of_mem ?_
    intro a b ha hb hab
    have hfa : formatDate a.1 = d := by
      have := (List.mem_filter.mp ha).2
      simpa using this
    have hfb : formatDate b.1 = d := by
      have := (List.mem_filter.mp hb).2
      simpa using this
    have hta : isTrunc a.1 := by
      have ha' := List.mem_of_mem_filter ha
      rw [List.mem_insertionSort, List.mem_dedup] at ha'
      rcases List.mem_map.mp ha' with ⟨ev, _, rfl⟩
      exact dateTrunc_isTrunc _ _
    have htb : isTrunc b.1 := by
      have hb' := List.mem_of_mem_filter hb
      rw [List.mem_insertionSort, List.mem_dedup] at hb'
      rcases List.mem_map.mp hb' with ⟨ev, _, rfl⟩
      exact dateTrunc_isTrunc _ _
    have hab1 : a.1 = b.1 :=
      isTrunc_formatDate_inj hta htb (hfa.trans hfb.symm)
    rcases hab.1 with hlt | ⟨_, hle⟩
    · exact absurd (hab1 ▸ hlt) (lt_irrefl _)
    · refine ⟨hle, fun hc => hab.2 ?_⟩
      obtain ⟨a1, a2⟩ := a
      obtain ⟨b1, b2⟩ := b
      simp only at hab1 hc
      rw [hab1, hc]

theorem C9_witness :
    List.Pairwise (fun x y : String × Int => strLt x.1 y.1)
      [("api", 200), ("chat", 100)] :=
  (C9_deterministic_ordered
      [⟨1, "alice", ⟨2024, 6, 3, 10, 0, 0⟩, 100, "chat"⟩,
        ⟨2, "alice", ⟨2024, 6, 3, 11, 0, 0⟩, 200, "api"⟩]
      "alice" ⟨2024, 6, 1, 0, 0, 0⟩ ⟨2024, 6, 30, 0, 0, 0⟩ "daily").2.2
    ⟨2024, 6, 3⟩ [("api", 200), ("chat", 100)] (by decide)

end TokenDashboard
